import Mathlib

/-!
Verification of the ZenGin archive codec described by the repository's
specification, over a shallow embedding of the sources in
`include/zenkit/Archive.hh`, `source/archive/archive_binsafe.hh`,
`include/zenkit/vobs/Misc.hh` and `include/phoenix/vobs/vob.hh`.

The enumerations, the binsafe static size table and the declared enum
member lists are transcribed directly from the headers. The operational
parts of the codec (the implementation files of the readers and writers
are not among the sources at hand, only their declarations in the headers)
are modelled from the specification, as indicated on each such definition.
-/

namespace ZenArchive

/-- Archive formats, from `zenkit::ArchiveFormat` (Archive.hh, lines 27-35).
These are the three canonical members; the full declared member list,
including the deprecated aliases, is `ArchiveFormat.declaredMembers`. -/
inductive ArchiveFormat where
  | BINARY
  | BINSAFE
  | ASCII
deriving DecidableEq, Repr, Fintype

/-- Numeric value of each `ArchiveFormat` member, as in the header. -/
def ArchiveFormat.val : ArchiveFormat → Nat
  | .BINARY => 0
  | .BINSAFE => 1
  | .ASCII => 2

/-- Entry type tags, from `zenkit::ArchiveEntryType` (Archive.hh, lines
75-101), canonical members only; the deprecated aliases are recorded in
`ArchiveEntryType.declaredMembers`. -/
inductive ArchiveEntryType where
  | STRING
  | INTEGER
  | FLOAT
  | BYTE
  | WORD
  | BOOL
  | VEC3
  | COLOR
  | RAW
  | RAW_FLOAT
  | ENUM
  | HASH
deriving DecidableEq, Repr, Fintype

/-- Numeric value of each `ArchiveEntryType` member, as in the header
(`0x10 = 16`, `0x11 = 17`, `0x12 = 18`). -/
def ArchiveEntryType.val : ArchiveEntryType → Nat
  | .STRING => 0x1
  | .INTEGER => 0x2
  | .FLOAT => 0x3
  | .BYTE => 0x4
  | .WORD => 0x5
  | .BOOL => 0x6
  | .VEC3 => 0x7
  | .COLOR => 0x8
  | .RAW => 0x9
  | .RAW_FLOAT => 0x10
  | .ENUM => 0x11
  | .HASH => 0x12

/-- Legacy binsafe entry tags, from `phoenix::archive_binsafe_type`
(archive_binsafe.hh, lines 31-44). -/
inductive archive_binsafe_type where
  | bs_string
  | bs_int
  | bs_float
  | bs_byte
  | bs_word
  | bs_bool
  | bs_vec3
  | bs_color
  | bs_raw
  | bs_raw_float
  | bs_enum
  | bs_hash
deriving DecidableEq, Repr, Fintype

/-- Numeric value of each `archive_binsafe_type` member, as in the header. -/
def archive_binsafe_type.val : archive_binsafe_type → Nat
  | .bs_string => 0x1
  | .bs_int => 0x2
  | .bs_float => 0x3
  | .bs_byte => 0x4
  | .bs_word => 0x5
  | .bs_bool => 0x6
  | .bs_vec3 => 0x7
  | .bs_color => 0x8
  | .bs_raw => 0x9
  | .bs_raw_float => 0x10
  | .bs_enum => 0x11
  | .bs_hash => 0x12

/-- The name-for-name correspondence between the legacy `phoenix` binsafe
tag enumeration and the `zenkit` entry type enumeration. -/
def binsafeTagOf : archive_binsafe_type → ArchiveEntryType
  | .bs_string => .STRING
  | .bs_int => .INTEGER
  | .bs_float => .FLOAT
  | .bs_byte => .BYTE
  | .bs_word => .WORD
  | .bs_bool => .BOOL
  | .bs_vec3 => .VEC3
  | .bs_color => .COLOR
  | .bs_raw => .RAW
  | .bs_raw_float => .RAW_FLOAT
  | .bs_enum => .ENUM
  | .bs_hash => .HASH

/-- The binsafe static type-to-size table `phoenix::type_sizes`
(archive_binsafe.hh, lines 9-29), indexed by tag value: entry `i` is the
payload byte width of the entry kind with tag `i` (`sizeof(int32_t) = 4`,
`sizeof(float) = 4`, `sizeof(uint8_t) = 1`, `sizeof(uint16_t) = 2`,
`sizeof(uint32_t) = 4`, `sizeof(float) * 3 = 12`,
`sizeof(uint8_t) * 4 = 4`), and `0` for the variable-length and the unused
tags. -/
def type_sizes : List Nat :=
  [0, 0, 4, 4, 1, 2, 4, 12, 4, 0, 0, 0, 0, 0, 0, 0, 0, 4, 4]

/-- One declared member of a C++ enumeration: its source-level name, its
numeric value, and whether its declaration carries a deprecation marker
(`ZKREM`). -/
structure EnumMember where
  name : String
  value : Nat
  deprecated : Bool
deriving DecidableEq, Repr

/-- The declared member list of `zenkit::ArchiveFormat` (Archive.hh, lines
27-35), in declaration order, including the `ZKREM`-deprecated aliases. -/
def ArchiveFormat.declaredMembers : List EnumMember :=
  [⟨"BINARY", 0, false⟩, ⟨"BINSAFE", 1, false⟩, ⟨"ASCII", 2, false⟩,
   ⟨"binary", 0, true⟩, ⟨"binsafe", 1, true⟩, ⟨"ascii", 2, true⟩]

/-- The declared member list of `zenkit::ArchiveEntryType` (Archive.hh,
lines 75-101), in declaration order, including the deprecated aliases. -/
def ArchiveEntryType.declaredMembers : List EnumMember :=
  [⟨"STRING", 1, false⟩, ⟨"INTEGER", 2, false⟩, ⟨"FLOAT", 3, false⟩,
   ⟨"BYTE", 4, false⟩, ⟨"WORD", 5, false⟩, ⟨"BOOL", 6, false⟩,
   ⟨"VEC3", 7, false⟩, ⟨"COLOR", 8, false⟩, ⟨"RAW", 9, false⟩,
   ⟨"RAW_FLOAT", 16, false⟩, ⟨"ENUM", 17, false⟩, ⟨"HASH", 18, false⟩,
   ⟨"string", 1, true⟩, ⟨"int_", 2, true⟩, ⟨"float_", 3, true⟩,
   ⟨"byte", 4, true⟩, ⟨"word", 5, true⟩, ⟨"bool_", 6, true⟩,
   ⟨"vec3", 7, true⟩, ⟨"color", 8, true⟩, ⟨"raw", 9, true⟩,
   ⟨"raw_float", 16, true⟩, ⟨"enum_", 17, true⟩, ⟨"hash", 18, true⟩]

/-- The declared member list of `zenkit::MessageFilterAction`
(vobs/Misc.hh, lines 18-33), in declaration order, including the
deprecated aliases. -/
def MessageFilterAction.declaredMembers : List EnumMember :=
  [⟨"NONE", 0, false⟩, ⟨"TRIGGER", 1, false⟩, ⟨"UNTRIGGER", 2, false⟩,
   ⟨"ENABLE", 3, false⟩, ⟨"DISABLE", 4, false⟩, ⟨"TOGGLE", 5, false⟩,
   ⟨"none", 0, true⟩, ⟨"trigger", 1, true⟩, ⟨"untrigger", 2, true⟩,
   ⟨"enable", 3, true⟩, ⟨"disable", 4, true⟩, ⟨"toggle", 5, true⟩]

/-- A member list is alias-free when no two members with different names
denote the same value (the property the specification asks for). -/
def aliasFree (ms : List EnumMember) : Prop :=
  ∀ m1 ∈ ms, ∀ m2 ∈ ms, m1.value = m2.value → m1.name = m2.name

instance (ms : List EnumMember) : Decidable (aliasFree ms) := by
  unfold aliasFree; infer_instance

/-- A member list carries deprecated aliasing when member names are
unique, the non-deprecated (canonical) members have pairwise distinct
values, and every deprecated member shares its value with a canonical
member. -/
def deprecatedAliasing (ms : List EnumMember) : Prop :=
  (∀ m1 ∈ ms, ∀ m2 ∈ ms, m1.name = m2.name → m1 = m2) ∧
  (∀ m1 ∈ ms, ∀ m2 ∈ ms,
    m1.deprecated = false → m2.deprecated = false → m1.value = m2.value → m1 = m2) ∧
  (∀ m ∈ ms, m.deprecated = true →
    ∃ c ∈ ms, c.deprecated = false ∧ c.value = m.value)

instance (ms : List EnumMember) : Decidable (deprecatedAliasing ms) := by
  unfold deprecatedAliasing; infer_instance

/-- Error kinds of the archive codec, transcribed from the
specification's error handling design (§7). -/
inductive ArchiveError where
  | MalformedHeader
  | UnexpectedValueKind
  | FramingDesync
  | UnresolvedHashReference
  | HashCollision
  | TruncatedInput
  | RecursionLimitExceeded
deriving DecidableEq, Repr

/-- The value kinds of the typed-value codec contract (specification §3):
one per typed read operation. -/
inductive ValueKind where
  | string
  | int
  | float
  | byte
  | word
  | bool
  | color
  | vec2
  | vec3
  | bbox
  | enum
  | raw
  | raw_float
deriving DecidableEq, Repr

/-- One typed value on the wire. Floating-point payloads are carried as
their 32-bit patterns (the codec only moves them, it never computes with
them), colors as four channel bytes, raw blobs as byte lists. -/
inductive Value where
  | vstring (s : String)
  | vint (i : Int)
  | vfloat (bits : Nat)
  | vbyte (b : Nat)
  | vword (w : Nat)
  | vbool (b : Bool)
  | vcolor (r g b a : Nat)
  | vvec2 (x y : Nat)
  | vvec3 (x y z : Nat)
  | vbbox (minv maxv : Nat × Nat × Nat)
  | venum (v : Nat)
  | vraw (bytes : List Nat)
  | vraw_float (floats : List Nat)
deriving DecidableEq, Repr

/-- The kind of a stored value. -/
def Value.kind : Value → ValueKind
  | .vstring _ => .string
  | .vint _ => .int
  | .vfloat _ => .float
  | .vbyte _ => .byte
  | .vword _ => .word
  | .vbool _ => .bool
  | .vcolor _ _ _ _ => .color
  | .vvec2 _ _ => .vec2
  | .vvec3 _ _ _ => .vec3
  | .vbbox _ _ => .bbox
  | .venum _ => .enum
  | .vraw _ => .raw
  | .vraw_float _ => .raw_float

/-- The on-wire fields of an object-begin marker: instance name, class
name and the 16-bit per-type version tag (specification §4.3: an
object-begin token carries object name, class name, version, and index;
the index is assigned monotonically by the reader, §3). -/
structure ObjHead where
  object_name : String
  class_name : String
  version : Nat
deriving DecidableEq, Repr

/-- The framing record `zenkit::ArchiveObject` (Archive.hh, lines 60-73):
sub-object name, class name, version tag, and the index unique for each
object in an archive. -/
structure ArchiveObject where
  object_name : String
  class_name : String
  version : Nat
  index : Nat
deriving DecidableEq, Repr

/-- A binsafe hash table entry, from `phoenix::hash_table_entry`
(archive_binsafe.hh, lines 46-49): a (string, 32-bit hash) pair. -/
structure hash_table_entry where
  key : String
  hash : Nat
deriving DecidableEq, Repr

/-- Modelled from the spec: one token of the entry stream presented
uniformly by the three encodings (the encoding implementations are not
among the sources at hand). An object-begin marker, an object-end marker,
a tagged typed value, or a binsafe string referenced by hash
(specification §3, §4.3). -/
inductive Token where
  | beginObj (head : ObjHead)
  | endObj
  | value (v : Value)
  | strRef (hash : Nat)
deriving DecidableEq, Repr

/-- Modelled from the spec: the state of one archive-read session — the
parsed header data (format and save-game flag), the cursor over the
remaining tokens, the binsafe hash table parsed up front, and the next
object index to assign (`_m_object_count` in archive_binsafe.hh, line
81). -/
structure ReaderState where
  format : ArchiveFormat
  save : Bool
  tokens : List Token
  hash_table : List hash_table_entry
  object_index : Nat
deriving DecidableEq, Repr

/-- Whether this archive represents a save-game, from
`zenkit::ReadArchive::is_save_game` (Archive.hh, lines 214-217). -/
def is_save_game (s : ReaderState) : Bool :=
  s.save

/-- Modelled from the spec: `ReadArchive::read_object_begin` (declared at
Archive.hh, lines 120-127; its implementation is not among the sources).
Probes the next marker for an object begin; on success it returns the
populated `ArchiveObject` (with the next monotonically assigned index) and
commits the cursor advance; on failure the state is returned exactly as it
was and no error is raised (specification §4.5). -/
def read_object_begin (s : ReaderState) : Option ArchiveObject × ReaderState :=
  match s.tokens with
  | Token.beginObj h :: rest =>
      (some ⟨h.object_name, h.class_name, h.version, s.object_index⟩,
       { s with tokens := rest, object_index := s.object_index + 1 })
  | _ => (none, s)

/-- Modelled from the spec: `ReadArchive::read_object_end` (declared at
Archive.hh, lines 129-135; its implementation is not among the sources).
Probes for an object-end marker with the symmetric contract: commit on
success, restore the state exactly on failure, never raise
(specification §4.5). -/
def read_object_end (s : ReaderState) : Bool × ReaderState :=
  match s.tokens with
  | Token.endObj :: rest => (true, { s with tokens := rest })
  | _ => (false, s)

/-- Modelled from the spec: `archive_reader_binsafe::assure_entry`
(declared at archive_binsafe.hh, line 78; its implementation is not among
the sources). Checks that the next stream entry is a typed value whose
tag matches the requested kind; on a match it consumes exactly that one
entry, otherwise it raises `UnexpectedValueKind` (specification §4.1),
or `TruncatedInput` at end of stream. -/
def assure_entry (tp : ValueKind) (s : ReaderState) :
    Except ArchiveError (Value × ReaderState) :=
  match s.tokens with
  | [] => .error .TruncatedInput
  | Token.value v :: rest =>
      if v.kind = tp then .ok (v, { s with tokens := rest })
      else .error .UnexpectedValueKind
  | _ => .error .UnexpectedValueKind

/-- Modelled from the spec: `ReadArchive::read_string` (declared at
Archive.hh, lines 137-140). A literal string entry is returned as is; a
binsafe hash reference resolves against the hash table parsed up front and
raises `UnresolvedHashReference` when no table entry with that hash exists
at the point of reference (specification §3, §7). Any other entry raises
`UnexpectedValueKind`. -/
def read_string (s : ReaderState) : Except ArchiveError (String × ReaderState) :=
  match s.tokens with
  | [] => .error .TruncatedInput
  | Token.value (Value.vstring str) :: rest => .ok (str, { s with tokens := rest })
  | Token.strRef h :: rest =>
      match s.hash_table.find? (fun e => e.hash == h) with
      | some e => .ok (e.key, { s with tokens := rest })
      | none => .error .UnresolvedHashReference
  | _ => .error .UnexpectedValueKind

/-- Modelled from the spec: `ReadArchive::read_int` (Archive.hh, lines
142-145): consumes one integer entry or raises. -/
def read_int (s : ReaderState) : Except ArchiveError (Int × ReaderState) :=
  match assure_entry ValueKind.int s with
  | .error e => .error e
  | .ok (.vint i, s1) => .ok (i, s1)
  | .ok _ => .error .UnexpectedValueKind

/-- Modelled from the spec: `ReadArchive::read_float` (Archive.hh, lines
147-150): consumes one float entry or raises. -/
def read_float (s : ReaderState) : Except ArchiveError (Nat × ReaderState) :=
  match assure_entry ValueKind.float s with
  | .error e => .error e
  | .ok (.vfloat x, s1) => .ok (x, s1)
  | .ok _ => .error .UnexpectedValueKind

/-- Modelled from the spec: `ReadArchive::read_byte` (Archive.hh, lines
152-155): consumes one byte entry or raises. -/
def read_byte (s : ReaderState) : Except ArchiveError (Nat × ReaderState) :=
  match assure_entry ValueKind.byte s with
  | .error e => .error e
  | .ok (.vbyte b, s1) => .ok (b, s1)
  | .ok _ => .error .UnexpectedValueKind

/-- Modelled from the spec: `ReadArchive::read_word` (Archive.hh, lines
157-160): consumes one word entry or raises. -/
def read_word (s : ReaderState) : Except ArchiveError (Nat × ReaderState) :=
  match assure_entry ValueKind.word s with
  | .error e => .error e
  | .ok (.vword w, s1) => .ok (w, s1)
  | .ok _ => .error .UnexpectedValueKind

/-- Modelled from the spec: `ReadArchive::read_enum` (Archive.hh, lines
162-165): consumes one enum entry or raises. -/
def read_enum (s : ReaderState) : Except ArchiveError (Nat × ReaderState) :=
  match assure_entry ValueKind.enum s with
  | .error e => .error e
  | .ok (.venum v, s1) => .ok (v, s1)
  | .ok _ => .error .UnexpectedValueKind

/-- Modelled from the spec: `ReadArchive::read_bool` (Archive.hh, lines
167-170): consumes one bool entry (four payload bytes on the binsafe
wire, `type_sizes[0x6] = 4`) and returns the single boolean, or raises. -/
def read_bool (s : ReaderState) : Except ArchiveError (Bool × ReaderState) :=
  match assure_entry ValueKind.bool s with
  | .error e => .error e
  | .ok (.vbool b, s1) => .ok (b, s1)
  | .ok _ => .error .UnexpectedValueKind

/-- Modelled from the spec: `ReadArchive::read_color` (Archive.hh, lines
172-175): consumes one RGBA color entry or raises. -/
def read_color (s : ReaderState) :
    Except ArchiveError ((Nat × Nat × Nat × Nat) × ReaderState) :=
  match assure_entry ValueKind.color s with
  | .error e => .error e
  | .ok (.vcolor r g b a, s1) => .ok ((r, g, b, a), s1)
  | .ok _ => .error .UnexpectedValueKind

/-- Modelled from the spec: `ReadArchive::read_vec3` (Archive.hh, lines
177-180): consumes one vec3 entry or raises. -/
def read_vec3 (s : ReaderState) :
    Except ArchiveError ((Nat × Nat × Nat) × ReaderState) :=
  match assure_entry ValueKind.vec3 s with
  | .error e => .error e
  | .ok (.vvec3 x y z, s1) => .ok ((x, y, z), s1)
  | .ok _ => .error .UnexpectedValueKind

/-- Modelled from the spec: `ReadArchive::read_vec2` (Archive.hh, lines
182-185): consumes one vec2 entry or raises. -/
def read_vec2 (s : ReaderState) :
    Except ArchiveError ((Nat × Nat) × ReaderState) :=
  match assure_entry ValueKind.vec2 s with
  | .error e => .error e
  | .ok (.vvec2 x y, s1) => .ok ((x, y), s1)
  | .ok _ => .error .UnexpectedValueKind

/-- Modelled from the spec: `ReadArchive::read_bbox` (Archive.hh, lines
187-190): consumes one bounding box entry (two vec3 corners) or raises. -/
def read_bbox (s : ReaderState) :
    Except ArchiveError (((Nat × Nat × Nat) × (Nat × Nat × Nat)) × ReaderState) :=
  match assure_entry ValueKind.bbox s with
  | .error e => .error e
  | .ok (.vbbox mn mx, s1) => .ok ((mn, mx), s1)
  | .ok _ => .error .UnexpectedValueKind

/-- Modelled from the spec: inserting one parsed (string, hash) pair into
the binsafe hash table. Two different literal strings claiming the same
hash are a `HashCollision` decode error, never silently resolved
(specification §3 invariant, §7). -/
def insertHashEntry (tbl : List hash_table_entry) (e : hash_table_entry) :
    Except ArchiveError (List hash_table_entry) :=
  match tbl.find? (fun e2 => e2.hash == e.hash) with
  | some e2 => if e2.key = e.key then .ok tbl else .error .HashCollision
  | none => .ok (tbl ++ [e])

/-- Modelled from the spec: parsing the binsafe leading hash table
section once, up front, entry by entry (specification §3, §4.3), into
`_m_hash_table_entries` (archive_binsafe.hh, line 84). -/
def parseHashTable (tbl : List hash_table_entry) :
    List hash_table_entry → Except ArchiveError (List hash_table_entry)
  | [] => .ok tbl
  | e :: es =>
      match insertHashEntry tbl e with
      | .ok tbl2 => parseHashTable tbl2 es
      | .error err => .error err

/-- A hash table resolves every hash to at most one entry (the
specification's §3 invariant for binsafe hash references). -/
def hashUnique (tbl : List hash_table_entry) : Prop :=
  ∀ x ∈ tbl, ∀ y ∈ tbl, x.hash = y.hash → x = y

/-- Modelled from the spec: forward scanning, tag by tag, until the
matching object-end marker, recursively accounting for nested begin/end
pairs (specification §4.3); `depth` counts the currently open nested
begins. Returns the tokens after the matching end, or `none` when the
stream ends first. -/
def scanToEnd : List Token → Nat → Option (List Token)
  | [], _ => none
  | Token.beginObj _ :: rest, depth => scanToEnd rest (depth + 1)
  | Token.endObj :: rest, depth =>
      if depth = 0 then some rest else scanToEnd rest (depth - 1)
  | Token.value _ :: rest, depth => scanToEnd rest depth
  | Token.strRef _ :: rest, depth => scanToEnd rest depth

/-- Modelled from the spec: discarding the object whose begin marker was
already consumed, together with its entire descendant subtree, by the
forward scan; a stream that ends before the matching end marker is a
truncation error. -/
def skip_current_object (s : ReaderState) : Except ArchiveError ReaderState :=
  match scanToEnd s.tokens 0 with
  | some rest => .ok { s with tokens := rest }
  | none => .error .TruncatedInput

/-- Modelled from the spec: `ReadArchive::skip_object` (declared at
Archive.hh, lines 204-207; its implementation is not among the sources).
With `skip_current = true` it skips the object whose begin marker was
already consumed; with `false` it first performs an internal
`read_object_begin` probe and, when the probe finds an object, discards
that object and all of its descendants (specification §4.5). -/
def skip_object (skip_current : Bool) (s : ReaderState) :
    Except ArchiveError ReaderState :=
  if skip_current then skip_current_object s
  else
    match read_object_begin s with
    | (some _, s1) => skip_current_object s1
    | (none, s1) => .ok s1

mutual

/-- An in-memory object: begin-marker fields, the typed field values in
their fixed order, and the ordered children subtrees (specification §3,
Typed Object). -/
inductive Tree : Type where
  | node (head : ObjHead) (fields : List Value) (children : Forest)

/-- An ordered list of sibling objects. -/
inductive Forest : Type where
  | nil : Forest
  | cons (t : Tree) (f : Forest) : Forest

end

mutual

/-- The wire token sequence of one object: begin marker, the field
values, the children in order, end marker. -/
def encodeTree : Tree → List Token
  | .node h fs c =>
      Token.beginObj h :: (fs.map Token.value ++ (encodeForest c ++ [Token.endObj]))

/-- The wire token sequence of a sibling list. -/
def encodeForest : Forest → List Token
  | .nil => []
  | .cons t f => encodeTree t ++ encodeForest f

end

/-- The begin-marker fields of a tree's root. -/
def Tree.headOf : Tree → ObjHead
  | .node h _ _ => h

/-- The tokens of one object after its begin marker: fields, children,
end marker. -/
def treeBody : Tree → List Token
  | .node _ fs c => fs.map Token.value ++ (encodeForest c ++ [Token.endObj])

mutual

/-- The number of objects in a tree (the root and all descendants). -/
def Tree.size : Tree → Nat
  | .node _ _ c => Forest.size c + 1

/-- The number of objects in a forest. -/
def Forest.size : Forest → Nat
  | .nil => 0
  | .cons t f => Tree.size t + Forest.size f

end

/-- The number of descendants of a tree's root. -/
def Tree.childCount : Tree → Nat
  | .node _ _ c => Forest.size c

/-- Modelled from the spec: the state of one archive-write session — the
header data and the tokens emitted so far (specification §4.7, §6 write
surface; the writer implementation is not among the sources). -/
structure WriteArchive where
  format : ArchiveFormat
  save : Bool
  out : List Token
deriving DecidableEq, Repr

/-- Modelled from the spec: `write_object_begin` emits a begin marker
carrying name, class and version (specification §4.7). -/
def write_object_begin (w : WriteArchive) (object_name class_name : String)
    (version : Nat) : WriteArchive :=
  { w with out := w.out ++ [Token.beginObj ⟨object_name, class_name, version⟩] }

/-- Modelled from the spec: `write_object_end` emits an end marker. -/
def write_object_end (w : WriteArchive) : WriteArchive :=
  { w with out := w.out ++ [Token.endObj] }

/-- Modelled from the spec: the typed write operation for strings. -/
def write_string (w : WriteArchive) (s : String) : WriteArchive :=
  { w with out := w.out ++ [Token.value (Value.vstring s)] }

/-- Modelled from the spec: the typed write operation for integers. -/
def write_int (w : WriteArchive) (i : Int) : WriteArchive :=
  { w with out := w.out ++ [Token.value (Value.vint i)] }

/-- Modelled from the spec: the typed write operation for floats. -/
def write_float (w : WriteArchive) (bits : Nat) : WriteArchive :=
  { w with out := w.out ++ [Token.value (Value.vfloat bits)] }

/-- Modelled from the spec: the typed write operation for bytes. -/
def write_byte (w : WriteArchive) (b : Nat) : WriteArchive :=
  { w with out := w.out ++ [Token.value (Value.vbyte b)] }

/-- Modelled from the spec: the typed write operation for words. -/
def write_word (w : WriteArchive) (v : Nat) : WriteArchive :=
  { w with out := w.out ++ [Token.value (Value.vword v)] }

/-- Modelled from the spec: the typed write operation for bools. -/
def write_bool (w : WriteArchive) (b : Bool) : WriteArchive :=
  { w with out := w.out ++ [Token.value (Value.vbool b)] }

/-- Modelled from the spec: the typed write operation for colors. -/
def write_color (w : WriteArchive) (r g b a : Nat) : WriteArchive :=
  { w with out := w.out ++ [Token.value (Value.vcolor r g b a)] }

/-- Modelled from the spec: the typed write operation for 2-vectors. -/
def write_vec2 (w : WriteArchive) (x y : Nat) : WriteArchive :=
  { w with out := w.out ++ [Token.value (Value.vvec2 x y)] }

/-- Modelled from the spec: the typed write operation for 3-vectors. -/
def write_vec3 (w : WriteArchive) (x y z : Nat) : WriteArchive :=
  { w with out := w.out ++ [Token.value (Value.vvec3 x y z)] }

/-- Modelled from the spec: the typed write operation for bounding
boxes. -/
def write_bbox (w : WriteArchive) (mn mx : Nat × Nat × Nat) : WriteArchive :=
  { w with out := w.out ++ [Token.value (Value.vbbox mn mx)] }

/-- Modelled from the spec: the typed write operation for enums. -/
def write_enum (w : WriteArchive) (v : Nat) : WriteArchive :=
  { w with out := w.out ++ [Token.value (Value.venum v)] }

/-- Modelled from the spec: the typed write operation for raw blobs. -/
def write_raw (w : WriteArchive) (bytes : List Nat) : WriteArchive :=
  { w with out := w.out ++ [Token.value (Value.vraw bytes)] }

/-- Modelled from the spec: the typed write operation for raw float
blobs. -/
def write_raw_float (w : WriteArchive) (floats : List Nat) : WriteArchive :=
  { w with out := w.out ++ [Token.value (Value.vraw_float floats)] }

/-- Dispatches one field value to its typed write operation. -/
def write_field (w : WriteArchive) : Value → WriteArchive
  | .vstring s => write_string w s
  | .vint i => write_int w i
  | .vfloat x => write_float w x
  | .vbyte b => write_byte w b
  | .vword v => write_word w v
  | .vbool b => write_bool w b
  | .vcolor r g b a => write_color w r g b a
  | .vvec2 x y => write_vec2 w x y
  | .vvec3 x y z => write_vec3 w x y z
  | .vbbox mn mx => write_bbox w mn mx
  | .venum v => write_enum w v
  | .vraw bs => write_raw w bs
  | .vraw_float fs => write_raw_float w fs

mutual

/-- Modelled from the spec: writing an object emits a begin marker, the
fields in their fixed order, the children recursively, then an end marker
(specification §4.7). -/
def saveTree (w : WriteArchive) : Tree → WriteArchive
  | .node h fs c =>
      write_object_end
        (saveForest (List.foldl write_field
          (write_object_begin w h.object_name h.class_name h.version) fs) c)

/-- Modelled from the spec: writing a sibling list in order. -/
def saveForest (w : WriteArchive) : Forest → WriteArchive
  | .nil => w
  | .cons t f => saveForest (saveTree w t) f

end

/-- Greedily takes the leading typed-value tokens of a stream: the fields
of the object under the cursor, which end at the first marker token. -/
def collectValues : List Token → List Value × List Token
  | Token.value v :: rest =>
      let p := collectValues rest
      (v :: p.1, p.2)
  | other => ([], other)

/-- Reads the field values of the object under the cursor. -/
def readFields (s : ReaderState) : List Value × ReaderState :=
  let p := collectValues s.tokens
  (p.1, { s with tokens := p.2 })

/-- Whether the next token is an object-begin marker. -/
def headIsBegin : List Token → Bool
  | Token.beginObj _ :: _ => true
  | _ => false

/-- Whether the next token is a typed value. -/
def headIsValue : List Token → Bool
  | Token.value _ :: _ => true
  | _ => false

mutual

/-- Modelled from the spec: the object tree builder's recursion after a
begin marker has been consumed — read the typed fields, repeatedly probe
for children, then require the object-end probe to succeed, a framing
desynchronization being fatal (specification §2, §4.6). -/
def loadRest (fuel : Nat) (h : ObjHead) (s : ReaderState) :
    Except ArchiveError (Tree × ReaderState) :=
  match loadChildren fuel (readFields s).2 with
  | .error e => .error e
  | .ok (c, s2) =>
      match read_object_end s2 with
      | (true, s3) => .ok (Tree.node h (readFields s).1 c, s3)
      | (false, _) => .error .FramingDesync
termination_by 2 * fuel + 1

/-- Modelled from the spec: reading children until the begin probe fails;
recursion depth beyond the fuel is a resource-exhaustion error
(specification §5). -/
def loadChildren (fuel : Nat) (s : ReaderState) :
    Except ArchiveError (Forest × ReaderState) :=
  match read_object_begin s with
  | (none, s1) => .ok (.nil, s1)
  | (some o, s1) =>
      match fuel with
      | 0 => .error .RecursionLimitExceeded
      | fuel' + 1 =>
          match loadRest fuel' ⟨o.object_name, o.class_name, o.version⟩ s1 with
          | .error e => .error e
          | .ok (t, s2) =>
              match loadChildren fuel' s2 with
              | .error e => .error e
              | .ok (f, s3) => .ok (Forest.cons t f, s3)
termination_by 2 * fuel

end

/-- Modelled from the spec: decoding one object from the cursor — probe
the begin marker, then build the tree; no object at the cursor is a
framing error for a caller that required one (specification §4.6). -/
def loadObject (fuel : Nat) (s : ReaderState) :
    Except ArchiveError (Tree × ReaderState) :=
  match read_object_begin s with
  | (none, _) => .error .FramingDesync
  | (some o, s1) => loadRest fuel ⟨o.object_name, o.class_name, o.version⟩ s1

/-- The engine version discriminant supplied by the caller (`GameVersion`
in the zenkit headers; specification §6: two known game releases). -/
inductive GameVersion where
  | GOTHIC_1
  | GOTHIC_2
deriving DecidableEq, Repr

/-- The fields of `zenkit::VAnimate` (vobs/Misc.hh, lines 65-87): the
regular field `start_on` and the save-game only field `s_is_running`,
both defaulted to `false` as in the header. -/
structure VAnimate where
  start_on : Bool := false
  s_is_running : Bool := false
deriving DecidableEq, Repr

/-- Modelled from the spec: the field-decoding portion of
`VAnimate::load` (declared at vobs/Misc.hh, line 81; its implementation
is not among the sources). The regular field is always read; the
save-game only field is read exactly when the archive header's save-game
flag is set, and is left at its default otherwise (specification §4.6,
§8). -/
def VAnimate.load (_version : GameVersion) (s : ReaderState) :
    Except ArchiveError (VAnimate × ReaderState) :=
  match read_bool s with
  | .error e => .error e
  | .ok (b, s1) =>
      if is_save_game s1 then
        match read_bool s1 with
        | .error e => .error e
        | .ok (r, s2) => .ok ({ start_on := b, s_is_running := r }, s2)
      else .ok ({ start_on := b, s_is_running := false }, s1)

/-- Modelled from the spec: the field-encoding portion of
`VAnimate::save` (declared at vobs/Misc.hh, line 86), symmetric to
`VAnimate.load`: the save-game only field is written exactly when the
archive being written is a save-game (specification §4.7). -/
def VAnimate.save (a : VAnimate) (w : WriteArchive) : WriteArchive :=
  if w.save then write_bool (write_bool w a.start_on) a.s_is_running
  else write_bool w a.start_on

/-- The fields of `zenkit::VItem` (vobs/Misc.hh, lines 95-120): the
script instance name (field `instance` in the header, a reserved word
here) and the save-game only fields `s_amount` and `s_flags` (given
default `0` in this model; the header leaves them uninitialized). -/
structure VItem where
  item_instance : String := ""
  s_amount : Int := 0
  s_flags : Int := 0
deriving DecidableEq, Repr

/-- Modelled from the spec: the field-decoding portion of `VItem::load`
(declared at vobs/Misc.hh, line 112). The instance name is always read;
the save-game only fields are read exactly when the archive header's
save-game flag is set and are left at their defaults otherwise
(specification §4.6, §8). -/
def VItem.load (_version : GameVersion) (s : ReaderState) :
    Except ArchiveError (VItem × ReaderState) :=
  match read_string s with
  | .error e => .error e
  | .ok (inst, s1) =>
      if is_save_game s1 then
        match read_int s1 with
        | .error e => .error e
        | .ok (amount, s2) =>
            match read_int s2 with
            | .error e => .error e
            | .ok (flags, s3) =>
                .ok ({ item_instance := inst, s_amount := amount,
                       s_flags := flags }, s3)
      else .ok ({ item_instance := inst }, s1)

/-- One operation of an archive-read session, for reasoning about whole
parse sessions: the two probes, a skip, a typed-value read of a given
kind, or a string read. -/
inductive ReadOp where
  | opBegin
  | opEnd
  | opSkip (skip_current : Bool)
  | opRead (tp : ValueKind)
  | opString
deriving DecidableEq, Repr

/-- Applies one session operation to the reader state, recording the
index of any `ArchiveObject` framing record assigned by it. `opSkip
false` performs the same internal begin probe as `skip_object false`, so
the index that probe assigns is recorded too. -/
def applyOp : ReadOp → ReaderState → Except ArchiveError (List Nat × ReaderState)
  | .opBegin, s =>
      match read_object_begin s with
      | (some o, s1) => .ok ([o.index], s1)
      | (none, s1) => .ok ([], s1)
  | .opEnd, s => .ok ([], (read_object_end s).2)
  | .opSkip true, s =>
      match skip_current_object s with
      | .ok s1 => .ok ([], s1)
      | .error e => .error e
  | .opSkip false, s =>
      match read_object_begin s with
      | (some o, s1) =>
          match skip_current_object s1 with
          | .ok s2 => .ok ([o.index], s2)
          | .error e => .error e
      | (none, s1) => .ok ([], s1)
  | .opRead tp, s =>
      match assure_entry tp s with
      | .ok (_, s1) => .ok ([], s1)
      | .error e => .error e
  | .opString, s =>
      match read_string s with
      | .ok (_, s1) => .ok ([], s1)
      | .error e => .error e

/-- Runs a session: applies the operations in order, concatenating the
assigned indices; the first raised error ends the session. -/
def runOps : List ReadOp → ReaderState → List Nat × ReaderState
  | [], s => ([], s)
  | op :: ops, s =>
      match applyOp op s with
      | .ok (ixs, s1) =>
          let p := runOps ops s1
          (ixs ++ p.1, p.2)
      | .error _ => ([], s)

/-- The invariant one session operation maintains, relative to the index
counter `n0` it started from: the counter never decreases, every index it
assigned lies in `[n0, final counter)`, and its own assignments are
increasing. -/
def boundOk (n0 : Nat) : Except ArchiveError (List Nat × ReaderState) → Prop
  | .error _ => True
  | .ok (ixs, s1) =>
      n0 ≤ s1.object_index ∧
      (∀ i ∈ ixs, n0 ≤ i ∧ i < s1.object_index) ∧
      List.Pairwise (fun a b => a < b) ixs

theorem scanToEnd_values (vs : List Value) (r : List Token) (d : Nat) :
    scanToEnd (vs.map Token.value ++ r) d = scanToEnd r d := by
  induction vs with
  | nil => rfl
  | cons v vs ih => simpa [scanToEnd] using ih

mutual

theorem scanToEnd_tree (t : Tree) (r : List Token) (d : Nat) :
    scanToEnd (encodeTree t ++ r) d = scanToEnd r d := by
  match t with
  | .node h fs c =>
    rw [encodeTree, List.cons_append, scanToEnd, List.append_assoc,
      scanToEnd_values, List.append_assoc, scanToEnd_forest c,
      List.singleton_append]
    simp [scanToEnd]

theorem scanToEnd_forest (f : Forest) (r : List Token) (d : Nat) :
    scanToEnd (encodeForest f ++ r) d = scanToEnd r d := by
  match f with
  | .nil => rfl
  | .cons t f' =>
    rw [encodeForest, List.append_assoc, scanToEnd_tree t, scanToEnd_forest f']

end

theorem scanToEnd_body (t : Tree) (r : List Token) :
    scanToEnd (treeBody t ++ r) 0 = some r := by
  match t with
  | .node h fs c =>
    rw [treeBody, List.append_assoc, scanToEnd_values, List.append_assoc,
      scanToEnd_forest c, List.singleton_append]
    simp [scanToEnd]

theorem encodeTree_eq (t : Tree) :
    encodeTree t = Token.beginObj (Tree.headOf t) :: treeBody t := by
  match t with
  | .node h fs c => rfl

/-- Claim C8, counterexample: the declared member list of
`zenkit::ArchiveFormat` is not alias-free — `BINARY` and the deprecated
`binary` are two member names denoting the same value `0`, so
source-level aliasing is carried forward, contrary to the claim. -/
theorem C8_counterexample : ¬ aliasFree ArchiveFormat.declaredMembers := by
  decide

/-- Claim C8 (amended): the dual-named enum members are carried forward
as deprecated aliases — in each of the cited enumerations every member
name is unique, the non-deprecated members have pairwise distinct values,
and every deprecated member denotes the same value as a non-deprecated
canonical member. -/
theorem C8_deprecated_aliases :
    deprecatedAliasing ArchiveFormat.declaredMembers ∧
    deprecatedAliasing ArchiveEntryType.declaredMembers ∧
    deprecatedAliasing MessageFilterAction.declaredMembers := by
  decide

/-- Claim C9: the legacy `phoenix::archive_binsafe_type` and the
`zenkit::ArchiveEntryType` enumerations assign the same numeric tag to
every entry kind (`STRING = 0x1` through `HASH = 0x12`), the
name-for-name correspondence is a bijection, and no member of either
enumeration takes a value in `0x0A`-`0x0F`. -/
theorem C9_tag_enums_agree :
    (∀ t : archive_binsafe_type, (binsafeTagOf t).val = t.val) ∧
    Function.Bijective binsafeTagOf ∧
    (archive_binsafe_type.bs_string.val = 0x1 ∧
      archive_binsafe_type.bs_int.val = 0x2 ∧
      archive_binsafe_type.bs_float.val = 0x3 ∧
      archive_binsafe_type.bs_byte.val = 0x4 ∧
      archive_binsafe_type.bs_word.val = 0x5 ∧
      archive_binsafe_type.bs_bool.val = 0x6 ∧
      archive_binsafe_type.bs_vec3.val = 0x7 ∧
      archive_binsafe_type.bs_color.val = 0x8 ∧
      archive_binsafe_type.bs_raw.val = 0x9 ∧
      archive_binsafe_type.bs_raw_float.val = 0x10 ∧
      archive_binsafe_type.bs_enum.val = 0x11 ∧
      archive_binsafe_type.bs_hash.val = 0x12) ∧
    (ArchiveEntryType.STRING.val = 0x1 ∧
      ArchiveEntryType.INTEGER.val = 0x2 ∧
      ArchiveEntryType.FLOAT.val = 0x3 ∧
      ArchiveEntryType.BYTE.val = 0x4 ∧
      ArchiveEntryType.WORD.val = 0x5 ∧
      ArchiveEntryType.BOOL.val = 0x6 ∧
      ArchiveEntryType.VEC3.val = 0x7 ∧
      ArchiveEntryType.COLOR.val = 0x8 ∧
      ArchiveEntryType.RAW.val = 0x9 ∧
      ArchiveEntryType.RAW_FLOAT.val = 0x10 ∧
      ArchiveEntryType.ENUM.val = 0x11 ∧
      ArchiveEntryType.HASH.val = 0x12) ∧
    (∀ t : archive_binsafe_type, t.val < 0xA ∨ 0xF < t.val) ∧
    (∀ e : ArchiveEntryType, e.val < 0xA ∨ 0xF < e.val) := by
  decide

/-- Claim C10: the binsafe static type-to-size table assigns to every
fixed-size entry kind exactly its wire byte width (INTEGER 4, FLOAT 4,
BYTE 1, WORD 2, BOOL 4, VEC3 12, COLOR 4, ENUM 4, HASH 4) and `0` to
every variable-length or unused tag (STRING, RAW, RAW_FLOAT, `0x00`,
`0x0A`-`0x0F`); the bool read returns the single boolean stored in the
four-byte payload. -/
theorem C10_type_sizes_table :
    (∀ (b : Bool) (fmt : ArchiveFormat) (sv : Bool) (rest : List Token)
      (tbl : List hash_table_entry) (n : Nat),
      read_bool ⟨fmt, sv, Token.value (Value.vbool b) :: rest, tbl, n⟩ =
        .ok (b, ⟨fmt, sv, rest, tbl, n⟩)) ∧
    type_sizes.length = 19 ∧
    type_sizes[archive_binsafe_type.bs_int.val]? = some 4 ∧
    type_sizes[archive_binsafe_type.bs_float.val]? = some 4 ∧
    type_sizes[archive_binsafe_type.bs_byte.val]? = some 1 ∧
    type_sizes[archive_binsafe_type.bs_word.val]? = some 2 ∧
    type_sizes[archive_binsafe_type.bs_bool.val]? = some 4 ∧
    type_sizes[archive_binsafe_type.bs_vec3.val]? = some 12 ∧
    type_sizes[archive_binsafe_type.bs_color.val]? = some 4 ∧
    type_sizes[archive_binsafe_type.bs_enum.val]? = some 4 ∧
    type_sizes[archive_binsafe_type.bs_hash.val]? = some 4 ∧
    type_sizes[archive_binsafe_type.bs_string.val]? = some 0 ∧
    type_sizes[archive_binsafe_type.bs_raw.val]? = some 0 ∧
    type_sizes[archive_binsafe_type.bs_raw_float.val]? = some 0 ∧
    type_sizes[0]? = some 0 ∧
    type_sizes[10]? = some 0 ∧ type_sizes[11]? = some 0 ∧
    type_sizes[12]? = some 0 ∧ type_sizes[13]? = some 0 ∧
    type_sizes[14]? = some 0 ∧ type_sizes[15]? = some 0 := by
  constructor
  · intro b fmt sv rest tbl n
    simp [read_bool, assure_entry, Value.kind]
  · decide

/-- Claim C1: the probing operations never raise — for every reader
state, `read_object_begin` either fails returning `none` with the state
restored exactly, or succeeds returning the object with the cursor
advanced past the begin marker; `read_object_end` has the symmetric
contract. -/
theorem C1_probing_restores_on_failure (s : ReaderState) :
    (((read_object_begin s).1 = none ∧ (read_object_begin s).2 = s) ∨
      (∃ o : ArchiveObject, (read_object_begin s).1 = some o ∧
        (read_object_begin s).2.tokens = s.tokens.tail)) ∧
    (read_object_end s = (false, s) ∨
      ((read_object_end s).1 = true ∧
        (read_object_end s).2.tokens = s.tokens.tail)) := by
  obtain ⟨fmt, sv, toks, tbl, n⟩ := s
  constructor
  · match toks with
    | [] => exact Or.inl ⟨rfl, rfl⟩
    | Token.beginObj h :: rest => exact Or.inr ⟨_, rfl, rfl⟩
    | Token.endObj :: rest => exact Or.inl ⟨rfl, rfl⟩
    | Token.value _ :: rest => exact Or.inl ⟨rfl, rfl⟩
    | Token.strRef _ :: rest => exact Or.inl ⟨rfl, rfl⟩
  · match toks with
    | [] => exact Or.inl rfl
    | Token.beginObj _ :: rest => exact Or.inl rfl
    | Token.endObj :: rest => exact Or.inr ⟨rfl, rfl⟩
    | Token.value _ :: rest => exact Or.inl rfl
    | Token.strRef _ :: rest => exact Or.inl rfl

/-- Claim C2: `skip_object` over an object with any number of descendants
of any nesting depth, followed by a sibling object, discards the entire
subtree — no child is promoted — and leaves the cursor exactly at the
sibling's begin marker; with `skip_current = true` it skips the object
whose begin marker was already consumed, with `false` it first performs
the internal begin probe (which assigns that object its index). -/
theorem C2_skip_object_subtree (t sib : Tree) (rest : List Token)
    (fmt : ArchiveFormat) (sv : Bool) (tbl : List hash_table_entry) (n : Nat) :
    skip_object false ⟨fmt, sv, encodeTree t ++ (encodeTree sib ++ rest), tbl, n⟩ =
      .ok ⟨fmt, sv, encodeTree sib ++ rest, tbl, n + 1⟩ ∧
    skip_object true ⟨fmt, sv, treeBody t ++ (encodeTree sib ++ rest), tbl, n⟩ =
      .ok ⟨fmt, sv, encodeTree sib ++ rest, tbl, n⟩ := by
  constructor
  · rw [encodeTree_eq t, List.cons_append]
    simp [skip_object, read_object_begin, skip_current_object, scanToEnd_body]
  · simp [skip_object, skip_current_object, scanToEnd_body]

/-- Claim C4: every typed read consumes exactly the one entry of its
value when the encoded entry matches the requested kind, advancing the
cursor past it, and raises `UnexpectedValueKind` whenever the encoded
entry cannot represent the requested kind — there is no silent coercion
between value kinds, for any of the read operations string, int, float,
byte, word, bool, color, vec2, vec3, bbox and enum. -/
theorem C4_typed_reads (fmt : ArchiveFormat) (sv : Bool) (rest : List Token)
    (tbl : List hash_table_entry) (n : Nat) :
    (∀ i : Int, read_int ⟨fmt, sv, Token.value (Value.vint i) :: rest, tbl, n⟩ =
      .ok (i, ⟨fmt, sv, rest, tbl, n⟩)) ∧
    (∀ v : Value, v.kind ≠ ValueKind.int →
      read_int ⟨fmt, sv, Token.value v :: rest, tbl, n⟩ =
        .error .UnexpectedValueKind) ∧
    (∀ x : Nat, read_float ⟨fmt, sv, Token.value (Value.vfloat x) :: rest, tbl, n⟩ =
      .ok (x, ⟨fmt, sv, rest, tbl, n⟩)) ∧
    (∀ v : Value, v.kind ≠ ValueKind.float →
      read_float ⟨fmt, sv, Token.value v :: rest, tbl, n⟩ =
        .error .UnexpectedValueKind) ∧
    (∀ str : String,
      read_string ⟨fmt, sv, Token.value (Value.vstring str) :: rest, tbl, n⟩ =
        .ok (str, ⟨fmt, sv, rest, tbl, n⟩)) ∧
    (∀ v : Value, v.kind ≠ ValueKind.string →
      read_string ⟨fmt, sv, Token.value v :: rest, tbl, n⟩ =
        .error .UnexpectedValueKind) ∧
    (∀ b : Nat, read_byte ⟨fmt, sv, Token.value (Value.vbyte b) :: rest, tbl, n⟩ =
      .ok (b, ⟨fmt, sv, rest, tbl, n⟩)) ∧
    (∀ v : Value, v.kind ≠ ValueKind.byte →
      read_byte ⟨fmt, sv, Token.value v :: rest, tbl, n⟩ =
        .error .UnexpectedValueKind) ∧
    (∀ x : Nat, read_word ⟨fmt, sv, Token.value (Value.vword x) :: rest, tbl, n⟩ =
      .ok (x, ⟨fmt, sv, rest, tbl, n⟩)) ∧
    (∀ v : Value, v.kind ≠ ValueKind.word →
      read_word ⟨fmt, sv, Token.value v :: rest, tbl, n⟩ =
        .error .UnexpectedValueKind) ∧
    (∀ b : Bool, read_bool ⟨fmt, sv, Token.value (Value.vbool b) :: rest, tbl, n⟩ =
      .ok (b, ⟨fmt, sv, rest, tbl, n⟩)) ∧
    (∀ v : Value, v.kind ≠ ValueKind.bool →
      read_bool ⟨fmt, sv, Token.value v :: rest, tbl, n⟩ =
        .error .UnexpectedValueKind) ∧
    (∀ r g b a : Nat,
      read_color ⟨fmt, sv, Token.value (Value.vcolor r g b a) :: rest, tbl, n⟩ =
        .ok ((r, g, b, a), ⟨fmt, sv, rest, tbl, n⟩)) ∧
    (∀ v : Value, v.kind ≠ ValueKind.color →
      read_color ⟨fmt, sv, Token.value v :: rest, tbl, n⟩ =
        .error .UnexpectedValueKind) ∧
    (∀ x y : Nat,
      read_vec2 ⟨fmt, sv, Token.value (Value.vvec2 x y) :: rest, tbl, n⟩ =
        .ok ((x, y), ⟨fmt, sv, rest, tbl, n⟩)) ∧
    (∀ v : Value, v.kind ≠ ValueKind.vec2 →
      read_vec2 ⟨fmt, sv, Token.value v :: rest, tbl, n⟩ =
        .error .UnexpectedValueKind) ∧
    (∀ x y z : Nat,
      read_vec3 ⟨fmt, sv, Token.value (Value.vvec3 x y z) :: rest, tbl, n⟩ =
        .ok ((x, y, z), ⟨fmt, sv, rest, tbl, n⟩)) ∧
    (∀ v : Value, v.kind ≠ ValueKind.vec3 →
      read_vec3 ⟨fmt, sv, Token.value v :: rest, tbl, n⟩ =
        .error .UnexpectedValueKind) ∧
    (∀ mn mx : Nat × Nat × Nat,
      read_bbox ⟨fmt, sv, Token.value (Value.vbbox mn mx) :: rest, tbl, n⟩ =
        .ok ((mn, mx), ⟨fmt, sv, rest, tbl, n⟩)) ∧
    (∀ v : Value, v.kind ≠ ValueKind.bbox →
      read_bbox ⟨fmt, sv, Token.value v :: rest, tbl, n⟩ =
        .error .UnexpectedValueKind) ∧
    (∀ x : Nat, read_enum ⟨fmt, sv, Token.value (Value.venum x) :: rest, tbl, n⟩ =
      .ok (x, ⟨fmt, sv, rest, tbl, n⟩)) ∧
    (∀ v : Value, v.kind ≠ ValueKind.enum →
      read_enum ⟨fmt, sv, Token.value v :: rest, tbl, n⟩ =
        .error .UnexpectedValueKind) := by
  refine ⟨fun i => by simp [read_int, assure_entry, Value.kind],
    fun v hv => by simp [read_int, assure_entry, hv],
    fun x => by simp [read_float, assure_entry, Value.kind],
    fun v hv => by simp [read_float, assure_entry, hv],
    fun str => by simp [read_string],
    fun v hv => ?_,
    fun b => by simp [read_byte, assure_entry, Value.kind],
    fun v hv => by simp [read_byte, assure_entry, hv],
    fun x => by simp [read_word, assure_entry, Value.kind],
    fun v hv => by simp [read_word, assure_entry, hv],
    fun b => by simp [read_bool, assure_entry, Value.kind],
    fun v hv => by simp [read_bool, assure_entry, hv],
    fun r g b a => by simp [read_color, assure_entry, Value.kind],
    fun v hv => by simp [read_color, assure_entry, hv],
    fun x y => by simp [read_vec2, assure_entry, Value.kind],
    fun v hv => by simp [read_vec2, assure_entry, hv],
    fun x y z => by simp [read_vec3, assure_entry, Value.kind],
    fun v hv => by simp [read_vec3, assure_entry, hv],
    fun mn mx => by simp [read_bbox, assure_entry, Value.kind],
    fun v hv => by simp [read_bbox, assure_entry, hv],
    fun x => by simp [read_enum, assure_entry, Value.kind],
    fun v hv => by simp [read_enum, assure_entry, hv]⟩
  match v, hv with
  | .vint i, _ => simp [read_string]
  | .vfloat x, _ => simp [read_string]
  | .vbyte b, _ => simp [read_string]
  | .vword w, _ => simp [read_string]
  | .vbool b, _ => simp [read_string]
  | .vcolor r g b a, _ => simp [read_string]
  | .vvec2 x y, _ => simp [read_string]
  | .vvec3 x y z, _ => simp [read_string]
  | .vbbox mn mx, _ => simp [read_string]
  | .venum x, _ => simp [read_string]
  | .vraw bs, _ => simp [read_string]
  | .vraw_float fs, _ => simp [read_string]
  | .vstring str, hv => exact absurd rfl hv

/-- Concrete instance of claim C4: reading the integer entry `7` with
`read_int` succeeds and consumes it, and reading the same position with
`read_float` (the entry is not a float) raises `UnexpectedValueKind`. -/
theorem C4_typed_reads_witness :
    read_int ⟨ArchiveFormat.BINSAFE, false, [Token.value (Value.vint 7)], [], 0⟩ =
      .ok (7, ⟨ArchiveFormat.BINSAFE, false, [], [], 0⟩) ∧
    read_float ⟨ArchiveFormat.BINSAFE, false, [Token.value (Value.vint 7)], [], 0⟩ =
      .error .UnexpectedValueKind := by
  exact ⟨(C4_typed_reads ArchiveFormat.BINSAFE false [] [] 0).1 7,
    (C4_typed_reads ArchiveFormat.BINSAFE false [] [] 0).2.2.2.1
      (Value.vint 7) (by decide)⟩

theorem insertHashEntry_ok (tbl tbl1 : List hash_table_entry)
    (e : hash_table_entry) (hins : insertHashEntry tbl e = .ok tbl1) :
    hashUnique tbl →
    hashUnique tbl1 ∧ (∀ x ∈ tbl, x ∈ tbl1) ∧
      (∃ w ∈ tbl1, w.hash = e.hash ∧ w.key = e.key) ∧
      (∀ e0 ∈ tbl, e0.hash = e.hash → e0.key = e.key) := by
  intro hu
  rw [insertHashEntry] at hins
  cases hfind : tbl.find? (fun e2 => e2.hash == e.hash) with
  | some e2 =>
    rw [hfind] at hins
    have hins1 : (if e2.key = e.key then (Except.ok tbl :
        Except ArchiveError (List hash_table_entry))
        else .error .HashCollision) = .ok tbl1 := hins
    have he2mem : e2 ∈ tbl := List.mem_of_find?_eq_some hfind
    have he2hash : e2.hash = e.hash := by
      have := List.find?_some hfind
      simpa using this
    by_cases hkey : e2.key = e.key
    · rw [if_pos hkey] at hins1
      injection hins1 with htbl
      subst htbl
      refine ⟨hu, fun x hx => hx, ⟨e2, he2mem, he2hash, hkey⟩, ?_⟩
      intro e0 h0 hh
      have he0 : e0 = e2 := hu e0 h0 e2 he2mem (hh.trans he2hash.symm)
      rw [he0, hkey]
    · rw [if_neg hkey] at hins1
      exact absurd hins1 (by simp)
  | none =>
    rw [hfind] at hins
    have hins1 : (Except.ok (tbl ++ [e]) :
        Except ArchiveError (List hash_table_entry)) = .ok tbl1 := hins
    injection hins1 with htbl
    have hnone : ∀ x ∈ tbl, x.hash ≠ e.hash := by
      intro x hx
      have := List.find?_eq_none.mp hfind x hx
      simpa using this
    subst htbl
    refine ⟨?_, fun x hx => List.mem_append_left _ hx,
      ⟨e, List.mem_append_right _ (List.mem_singleton_self e), rfl, rfl⟩,
      fun e0 h0 hh => absurd hh (hnone e0 h0)⟩
    intro x hx y hy hxy
    rcases List.mem_append.mp hx with hx1 | hx1
    · rcases List.mem_append.mp hy with hy1 | hy1
      · exact hu x hx1 y hy1 hxy
      · rw [List.mem_singleton.mp hy1] at hxy ⊢
        exact absurd hxy (hnone x hx1)
    · rcases List.mem_append.mp hy with hy1 | hy1
      · rw [List.mem_singleton.mp hx1] at hxy ⊢
        exact absurd hxy.symm (hnone y hy1)
      · rw [List.mem_singleton.mp hx1, List.mem_singleton.mp hy1]

theorem parseHashTable_ok_consistent (es : List hash_table_entry) :
    ∀ tbl tbl2 : List hash_table_entry, hashUnique tbl →
      parseHashTable tbl es = .ok tbl2 →
      (∀ e1 ∈ es, ∀ e0 ∈ tbl, e0.hash = e1.hash → e0.key = e1.key) ∧
      (∀ e1 ∈ es, ∀ e2 ∈ es, e1.hash = e2.hash → e1.key = e2.key) := by
  induction es with
  | nil =>
    intro tbl tbl2 _ _
    exact ⟨by simp, by simp⟩
  | cons e es ih =>
    intro tbl tbl2 hu hp
    rw [parseHashTable] at hp
    cases hins : insertHashEntry tbl e with
    | error err => rw [hins] at hp; exact absurd hp (by simp)
    | ok tbl1 =>
      rw [hins] at hp
      have hp1 : parseHashTable tbl1 es = .ok tbl2 := hp
      obtain ⟨hu1, hsub, ⟨w, hwmem, hwhash, hwkey⟩, hagree⟩ :=
        insertHashEntry_ok tbl tbl1 e hins hu
      obtain ⟨A1, B1⟩ := ih tbl1 tbl2 hu1 hp1
      constructor
      · intro f1 hf1 e0 h0 hh
        rcases List.mem_cons.mp hf1 with hc1 | hc1
        · rw [hc1] at hh ⊢
          exact hagree e0 h0 hh
        · exact A1 f1 hc1 e0 (hsub e0 h0) hh
      · intro f1 hf1 f2 hf2 hh
        rcases List.mem_cons.mp hf1 with hc1 | hc1
        · rcases List.mem_cons.mp hf2 with hc2 | hc2
          · rw [hc1, hc2]
          · have hw2 := A1 f2 hc2 w hwmem (by rw [hwhash, ← hc1]; exact hh)
            rw [hc1, ← hwkey]
            exact hw2
        · rcases List.mem_cons.mp hf2 with hc2 | hc2
          · have hw1 := A1 f1 hc1 w hwmem (by rw [hwhash, ← hc2]; exact hh.symm)
            rw [hc2, ← hwkey]
            exact hw1.symm
          · exact B1 f1 hc1 f2 hc2 hh

theorem parseHashTable_total (es : List hash_table_entry) :
    ∀ tbl : List hash_table_entry,
      (∃ tbl2, parseHashTable tbl es = .ok tbl2) ∨
        parseHashTable tbl es = .error .HashCollision := by
  induction es with
  | nil => exact fun tbl => Or.inl ⟨tbl, rfl⟩
  | cons e es ih =>
    intro tbl
    cases hins : insertHashEntry tbl e with
    | ok tbl1 =>
      have hstep : parseHashTable tbl (e :: es) = parseHashTable tbl1 es := by
        rw [parseHashTable, hins]
      rw [hstep]
      exact ih tbl1
    | error err =>
      have herr : err = ArchiveError.HashCollision := by
        rw [insertHashEntry] at hins
        cases hfind : tbl.find? (fun e2 => e2.hash == e.hash) with
        | some e2 =>
          rw [hfind] at hins
          have hins1 : (if e2.key = e.key then (Except.ok tbl :
              Except ArchiveError (List hash_table_entry))
              else .error .HashCollision) = .error err := hins
          by_cases hkey : e2.key = e.key
          · rw [if_pos hkey] at hins1
            exact absurd hins1 (by simp)
          · rw [if_neg hkey] at hins1
            injection hins1 with h1
            exact h1.symm
        | none =>
          rw [hfind] at hins
          have hins1 : (Except.ok (tbl ++ [e]) :
              Except ArchiveError (List hash_table_entry)) = .error err := hins
          exact absurd hins1 (by simp)
      have hstep : parseHashTable tbl (e :: es) = .error err := by
        rw [parseHashTable, hins]
      rw [hstep, herr]
      exact Or.inr rfl

/-- Claim C5: a binsafe string referenced by a hash with no table entry
at the point of reference raises `UnresolvedHashReference`, and a hash
table section in which two different literal strings claim the same hash
makes decoding fail with `HashCollision` instead of silently resolving
to one of them. -/
theorem C5_hash_strings :
    (∀ (h : Nat) (rest : List Token) (fmt : ArchiveFormat) (sv : Bool)
      (tbl : List hash_table_entry) (n : Nat),
      tbl.find? (fun e => e.hash == h) = none →
      read_string ⟨fmt, sv, Token.strRef h :: rest, tbl, n⟩ =
        .error .UnresolvedHashReference) ∧
    (∀ (entries : List hash_table_entry) (e1 e2 : hash_table_entry),
      e1 ∈ entries → e2 ∈ entries → e1.hash = e2.hash → e1.key ≠ e2.key →
      parseHashTable [] entries = .error .HashCollision) := by
  constructor
  · intro h rest fmt sv tbl n hfind
    simp [read_string, hfind]
  · intro entries e1 e2 h1 h2 hh hk
    rcases parseHashTable_total entries [] with ⟨tbl2, hok⟩ | herr
    · obtain ⟨-, B⟩ :=
        parseHashTable_ok_consistent entries [] tbl2 (by simp [hashUnique]) hok
      exact absurd (B e1 h1 e2 h2 hh) hk
    · exact herr

/-- Concrete instance of claim C5: the reference `strRef 5` against an
empty table is unresolved, and a table section defining `"a"` and `"b"`
with the same hash `1` collides. -/
theorem C5_hash_strings_witness :
    read_string ⟨ArchiveFormat.BINSAFE, false, [Token.strRef 5], [], 0⟩ =
      .error .UnresolvedHashReference ∧
    parseHashTable [] [⟨"a", 1⟩, ⟨"b", 1⟩] = .error .HashCollision := by
  exact ⟨C5_hash_strings.1 5 [] ArchiveFormat.BINSAFE false [] 0 rfl,
    C5_hash_strings.2 [⟨"a", 1⟩, ⟨"b", 1⟩] ⟨"a", 1⟩ ⟨"b", 1⟩
      (by decide) (by decide) rfl (by decide)⟩

/-- Claim C6: a save-game only field (`VAnimate.s_is_running`,
`VItem.s_amount`, `VItem.s_flags`) is populated from the stream when the
archive's save-game flag is set, and with the flag unset it is left at
its default and not one token of the stream is consumed for it — the
cursor stops right after the regular fields. -/
theorem C6_savegame_fields (v : GameVersion) (fmt : ArchiveFormat)
    (tbl : List hash_table_entry) (n : Nat) :
    (∀ (b r : Bool) (rest : List Token),
      VAnimate.load v ⟨fmt, true, Token.value (Value.vbool b) ::
          Token.value (Value.vbool r) :: rest, tbl, n⟩ =
        .ok ({ start_on := b, s_is_running := r }, ⟨fmt, true, rest, tbl, n⟩)) ∧
    (∀ (b : Bool) (rest : List Token),
      VAnimate.load v ⟨fmt, false, Token.value (Value.vbool b) :: rest, tbl, n⟩ =
        .ok ({ start_on := b, s_is_running := false },
          ⟨fmt, false, rest, tbl, n⟩)) ∧
    (∀ (inst : String) (amount flags : Int) (rest : List Token),
      VItem.load v ⟨fmt, true, Token.value (Value.vstring inst) ::
          Token.value (Value.vint amount) ::
          Token.value (Value.vint flags) :: rest, tbl, n⟩ =
        .ok ({ item_instance := inst, s_amount := amount, s_flags := flags },
          ⟨fmt, true, rest, tbl, n⟩)) ∧
    (∀ (inst : String) (rest : List Token),
      VItem.load v ⟨fmt, false, Token.value (Value.vstring inst) :: rest, tbl, n⟩ =
        .ok ({ item_instance := inst, s_amount := 0, s_flags := 0 },
          ⟨fmt, false, rest, tbl, n⟩)) := by
  refine ⟨fun b r rest => ?_, fun b rest => ?_,
    fun inst amount flags rest => ?_, fun inst rest => ?_⟩
  · simp [VAnimate.load, read_bool, assure_entry, Value.kind, is_save_game]
  · simp [VAnimate.load, read_bool, assure_entry, Value.kind, is_save_game]
  · simp [VItem.load, read_string, read_int, assure_entry, Value.kind,
      is_save_game]
  · simp [VItem.load, read_string, read_int, assure_entry, Value.kind,
      is_save_game]

theorem applyOp_bound (op : ReadOp) (s : ReaderState) :
    boundOk s.object_index (applyOp op s) := by
  obtain ⟨fmt, sv, toks, tbl, n⟩ := s
  cases op with
  | opBegin =>
    match toks with
    | [] => simp [applyOp, read_object_begin, boundOk]
    | Token.beginObj hd :: rest =>
      simp [applyOp, read_object_begin, boundOk]
    | Token.endObj :: rest => simp [applyOp, read_object_begin, boundOk]
    | Token.value _ :: rest => simp [applyOp, read_object_begin, boundOk]
    | Token.strRef _ :: rest => simp [applyOp, read_object_begin, boundOk]
  | opEnd =>
    match toks with
    | [] => simp [applyOp, read_object_end, boundOk]
    | Token.beginObj _ :: rest => simp [applyOp, read_object_end, boundOk]
    | Token.endObj :: rest => simp [applyOp, read_object_end, boundOk]
    | Token.value _ :: rest => simp [applyOp, read_object_end, boundOk]
    | Token.strRef _ :: rest => simp [applyOp, read_object_end, boundOk]
  | opSkip skc =>
    cases skc with
    | true =>
      cases hscan : scanToEnd toks 0 with
      | some r2 => simp [applyOp, skip_current_object, hscan, boundOk]
      | none => simp [applyOp, skip_current_object, hscan, boundOk]
    | false =>
      match toks with
      | [] => simp [applyOp, read_object_begin, boundOk]
      | Token.beginObj hd :: rest =>
        cases hscan : scanToEnd rest 0 with
        | some r2 =>
          simp [applyOp, read_object_begin, skip_current_object, hscan,
            boundOk]
        | none =>
          simp [applyOp, read_object_begin, skip_current_object, hscan,
            boundOk]
      | Token.endObj :: rest => simp [applyOp, read_object_begin, boundOk]
      | Token.value _ :: rest => simp [applyOp, read_object_begin, boundOk]
      | Token.strRef _ :: rest => simp [applyOp, read_object_begin, boundOk]
  | opRead tp =>
    match toks with
    | [] => simp [applyOp, assure_entry, boundOk]
    | Token.beginObj _ :: rest => simp [applyOp, assure_entry, boundOk]
    | Token.endObj :: rest => simp [applyOp, assure_entry, boundOk]
    | Token.value v :: rest =>
      by_cases hk : v.kind = tp
      · simp [applyOp, assure_entry, hk, boundOk]
      · simp [applyOp, assure_entry, hk, boundOk]
    | Token.strRef _ :: rest => simp [applyOp, assure_entry, boundOk]
  | opString =>
    match toks with
    | [] => simp [applyOp, read_string, boundOk]
    | Token.beginObj _ :: rest => simp [applyOp, read_string, boundOk]
    | Token.endObj :: rest => simp [applyOp, read_string, boundOk]
    | Token.value v :: rest =>
      match v with
      | .vstring str => simp [applyOp, read_string, boundOk]
      | .vint _ => simp [applyOp, read_string, boundOk]
      | .vfloat _ => simp [applyOp, read_string, boundOk]
      | .vbyte _ => simp [applyOp, read_string, boundOk]
      | .vword _ => simp [applyOp, read_string, boundOk]
      | .vbool _ => simp [applyOp, read_string, boundOk]
      | .vcolor _ _ _ _ => simp [applyOp, read_string, boundOk]
      | .vvec2 _ _ => simp [applyOp, read_string, boundOk]
      | .vvec3 _ _ _ => simp [applyOp, read_string, boundOk]
      | .vbbox _ _ => simp [applyOp, read_string, boundOk]
      | .venum _ => simp [applyOp, read_string, boundOk]
      | .vraw _ => simp [applyOp, read_string, boundOk]
      | .vraw_float _ => simp [applyOp, read_string, boundOk]
    | Token.strRef hh :: rest =>
      cases hfind : tbl.find? (fun e => e.hash == hh) with
      | some e2 => simp [applyOp, read_string, hfind, boundOk]
      | none => simp [applyOp, read_string, hfind, boundOk]

theorem runOps_bound (ops : List ReadOp) :
    ∀ s : ReaderState,
      s.object_index ≤ (runOps ops s).2.object_index ∧
      (∀ i ∈ (runOps ops s).1,
        s.object_index ≤ i ∧ i < (runOps ops s).2.object_index) ∧
      List.Pairwise (fun a b => a < b) (runOps ops s).1 := by
  induction ops with
  | nil =>
    intro s
    exact ⟨le_refl _, by simp [runOps], by simp [runOps]⟩
  | cons op ops ih =>
    intro s
    have hb := applyOp_bound op s
    cases hap : applyOp op s with
    | error e =>
      have hrun : runOps (op :: ops) s = ([], s) := by
        rw [runOps, hap]
      rw [hrun]
      exact ⟨le_refl _, by simp, by simp⟩
    | ok p =>
      obtain ⟨ixs, s1⟩ := p
      rw [hap] at hb
      simp only [boundOk] at hb
      obtain ⟨hle1, hbound1, hpw1⟩ := hb
      have hrun : runOps (op :: ops) s =
          (ixs ++ (runOps ops s1).1, (runOps ops s1).2) := by
        rw [runOps, hap]
      rw [hrun]
      obtain ⟨hle2, hbound2, hpw2⟩ := ih s1
      refine ⟨le_trans hle1 hle2, ?_, ?_⟩
      · intro i hi
        rcases List.mem_append.mp hi with hi1 | hi1
        · obtain ⟨ha, hc⟩ := hbound1 i hi1
          exact ⟨ha, lt_of_lt_of_le hc hle2⟩
        · obtain ⟨ha, hc⟩ := hbound2 i hi1
          exact ⟨le_trans hle1 ha, hc⟩
      · rw [List.pairwise_append]
        refine ⟨hpw1, hpw2, ?_⟩
        intro a ha b hb2
        obtain ⟨-, hc⟩ := hbound1 a ha
        obtain ⟨hd, -⟩ := hbound2 b hb2
        exact lt_of_lt_of_le hc hd

/-- Claim C7: within one archive-read session, whatever sequence of
operations is performed, the index values assigned to `ArchiveObject`
framing records are pairwise strictly increasing in parse order, and no
index value is ever reused — every assigned index is unique. -/
theorem C7_indices_strictly_increasing (ops : List ReadOp) (s : ReaderState) :
    List.Pairwise (fun a b => a < b) (runOps ops s).1 ∧
      (runOps ops s).1.Nodup := by
  have hpw := (runOps_bound ops s).2.2
  exact ⟨hpw, hpw.imp (fun hab => Nat.ne_of_lt hab)⟩

theorem collectValues_append (vs : List Value) (r : List Token)
    (hr : headIsValue r = false) :
    collectValues (vs.map Token.value ++ r) = (vs, r) := by
  induction vs with
  | nil =>
    match r, hr with
    | [], _ => rfl
    | Token.beginObj _ :: _, _ => rfl
    | Token.endObj :: _, _ => rfl
    | Token.strRef _ :: _, _ => rfl
    | Token.value _ :: _, hr => exact absurd hr (by simp [headIsValue])
  | cons v vs ih => simp [collectValues, ih]

theorem headIsValue_encodeForest (c : Forest) (r : List Token) :
    headIsValue (encodeForest c ++ (Token.endObj :: r)) = false := by
  match c with
  | .nil => rfl
  | .cons t f => rw [encodeForest, encodeTree_eq t]; rfl

theorem Tree.size_eq (t : Tree) : Tree.size t = Tree.childCount t + 1 := by
  match t with
  | .node h fs c => rfl

theorem foldl_write_field_out (fs : List Value) : ∀ w : WriteArchive,
    (List.foldl write_field w fs).out = w.out ++ fs.map Token.value := by
  induction fs with
  | nil => intro w; simp
  | cons v fs ih =>
    intro w
    rw [List.foldl_cons, ih]
    have hv : (write_field w v).out = w.out ++ [Token.value v] := by
      cases v <;> rfl
    rw [hv]
    simp

mutual

theorem saveTree_out (t : Tree) : ∀ w : WriteArchive,
    (saveTree w t).out = w.out ++ encodeTree t := by
  match t with
  | .node h fs c =>
    intro w
    rw [saveTree]
    have hend : ∀ x : WriteArchive, (write_object_end x).out =
        x.out ++ [Token.endObj] := fun x => rfl
    rw [hend, saveForest_out c, foldl_write_field_out]
    simp [write_object_begin, encodeTree]

theorem saveForest_out (f : Forest) : ∀ w : WriteArchive,
    (saveForest w f).out = w.out ++ encodeForest f := by
  match f with
  | .nil => intro w; simp [saveForest, encodeForest]
  | .cons t f2 =>
    intro w
    rw [saveForest, saveForest_out f2, saveTree_out t]
    simp [encodeForest]

end

mutual

theorem loadRest_encode (t : Tree) : ∀ (fuel : Nat) (r : List Token)
    (fmt : ArchiveFormat) (sv : Bool) (tbl : List hash_table_entry) (n : Nat),
    Tree.childCount t ≤ fuel →
    loadRest fuel (Tree.headOf t) ⟨fmt, sv, treeBody t ++ r, tbl, n⟩ =
      .ok (t, ⟨fmt, sv, r, tbl, n + Tree.childCount t⟩) := by
  match t with
  | .node h fs c =>
    intro fuel r fmt sv tbl n hfuel
    have htoks : treeBody (Tree.node h fs c) ++ r =
        fs.map Token.value ++ (encodeForest c ++ (Token.endObj :: r)) := by
      simp [treeBody]
    rw [htoks, loadRest]
    have hfields : readFields ⟨fmt, sv, fs.map Token.value ++
        (encodeForest c ++ (Token.endObj :: r)), tbl, n⟩ =
        (fs, ⟨fmt, sv, encodeForest c ++ (Token.endObj :: r), tbl, n⟩) := by
      simp [readFields,
        collectValues_append fs _ (headIsValue_encodeForest c r)]
    rw [hfields]
    rw [loadChildren_encode c fuel (Token.endObj :: r) fmt sv tbl n hfuel rfl]
    rfl

theorem loadChildren_encode (f : Forest) : ∀ (fuel : Nat) (r : List Token)
    (fmt : ArchiveFormat) (sv : Bool) (tbl : List hash_table_entry) (n : Nat),
    Forest.size f ≤ fuel → headIsBegin r = false →
    loadChildren fuel ⟨fmt, sv, encodeForest f ++ r, tbl, n⟩ =
      .ok (f, ⟨fmt, sv, r, tbl, n + Forest.size f⟩) := by
  match f with
  | .nil =>
    intro fuel r fmt sv tbl n _ hr
    rw [encodeForest, List.nil_append, loadChildren]
    match r, hr with
    | [], _ => rfl
    | Token.endObj :: _, _ => rfl
    | Token.value _ :: _, _ => rfl
    | Token.strRef _ :: _, _ => rfl
    | Token.beginObj _ :: _, hr => exact absurd hr (by simp [headIsBegin])
  | .cons t f2 =>
    intro fuel r fmt sv tbl n hfuel hr
    match t with
    | .node hd fs2 c2 =>
      obtain ⟨obn, cln, ver⟩ := hd
      have hsz : Forest.size (Forest.cons (Tree.node ⟨obn, cln, ver⟩ fs2 c2) f2) =
          Forest.size c2 + 1 + Forest.size f2 := by
        simp [Forest.size, Tree.size]
      rw [hsz] at hfuel
      cases fuel with
      | zero => omega
      | succ k =>
        have hbody := loadRest_encode (Tree.node ⟨obn, cln, ver⟩ fs2 c2) k
          (encodeForest f2 ++ r) fmt sv tbl (n + 1)
          (by show Forest.size c2 ≤ k; omega)
        simp only [Tree.childCount, Tree.headOf] at hbody
        have hrest := loadChildren_encode f2 k r fmt sv tbl
          (n + 1 + Forest.size c2) (by omega) hr
        have htoks : encodeForest
              (Forest.cons (Tree.node ⟨obn, cln, ver⟩ fs2 c2) f2) ++ r =
            Token.beginObj ⟨obn, cln, ver⟩ ::
              (treeBody (Tree.node ⟨obn, cln, ver⟩ fs2 c2) ++
                (encodeForest f2 ++ r)) := by
          rw [encodeForest, encodeTree_eq]
          simp [Tree.headOf]
        rw [htoks, loadChildren]
        simp only [read_object_begin, hbody, hrest]
        have harith : n + 1 + Forest.size c2 + Forest.size f2 =
            n + Forest.size (Forest.cons (Tree.node ⟨obn, cln, ver⟩ fs2 c2) f2) := by
          rw [hsz]
          omega
        rw [harith]

end

/-- Claim C3: for any object tree, decoding the token stream produced by
encoding it (same encoding, same engine context) reproduces the tree
exactly, the cursor ending at end of stream; and for every typed read
there is a corresponding write producing exactly the wire shape that the
read accepts and maps back to the written value — shown for all eleven
value kinds, for the framing pair, and for `VAnimate`'s save/load pair. -/
theorem C3_roundtrip :
    (∀ (t : Tree) (fmt fmt' : ArchiveFormat) (sv sv' : Bool)
      (tbl : List hash_table_entry) (n : Nat),
      loadObject (Tree.size t)
          ⟨fmt, sv, (saveTree ⟨fmt', sv', []⟩ t).out, tbl, n⟩ =
        .ok (t, ⟨fmt, sv, [], tbl, n + Tree.size t⟩)) ∧
    (∀ (str : String) (fmt fmt' : ArchiveFormat) (sv sv' : Bool)
      (tbl : List hash_table_entry) (n : Nat) (rest : List Token),
      read_string ⟨fmt, sv, (write_string ⟨fmt', sv', []⟩ str).out ++ rest,
          tbl, n⟩ = .ok (str, ⟨fmt, sv, rest, tbl, n⟩)) ∧
    (∀ (i : Int) (fmt fmt' : ArchiveFormat) (sv sv' : Bool)
      (tbl : List hash_table_entry) (n : Nat) (rest : List Token),
      read_int ⟨fmt, sv, (write_int ⟨fmt', sv', []⟩ i).out ++ rest, tbl, n⟩ =
        .ok (i, ⟨fmt, sv, rest, tbl, n⟩)) ∧
    (∀ (x : Nat) (fmt fmt' : ArchiveFormat) (sv sv' : Bool)
      (tbl : List hash_table_entry) (n : Nat) (rest : List Token),
      read_float ⟨fmt, sv, (write_float ⟨fmt', sv', []⟩ x).out ++ rest, tbl, n⟩ =
        .ok (x, ⟨fmt, sv, rest, tbl, n⟩)) ∧
    (∀ (b : Nat) (fmt fmt' : ArchiveFormat) (sv sv' : Bool)
      (tbl : List hash_table_entry) (n : Nat) (rest : List Token),
      read_byte ⟨fmt, sv, (write_byte ⟨fmt', sv', []⟩ b).out ++ rest, tbl, n⟩ =
        .ok (b, ⟨fmt, sv, rest, tbl, n⟩)) ∧
    (∀ (x : Nat) (fmt fmt' : ArchiveFormat) (sv sv' : Bool)
      (tbl : List hash_table_entry) (n : Nat) (rest : List Token),
      read_word ⟨fmt, sv, (write_word ⟨fmt', sv', []⟩ x).out ++ rest, tbl, n⟩ =
        .ok (x, ⟨fmt, sv, rest, tbl, n⟩)) ∧
    (∀ (b : Bool) (fmt fmt' : ArchiveFormat) (sv sv' : Bool)
      (tbl : List hash_table_entry) (n : Nat) (rest : List Token),
      read_bool ⟨fmt, sv, (write_bool ⟨fmt', sv', []⟩ b).out ++ rest, tbl, n⟩ =
        .ok (b, ⟨fmt, sv, rest, tbl, n⟩)) ∧
    (∀ (r g b a : Nat) (fmt fmt' : ArchiveFormat) (sv sv' : Bool)
      (tbl : List hash_table_entry) (n : Nat) (rest : List Token),
      read_color ⟨fmt, sv, (write_color ⟨fmt', sv', []⟩ r g b a).out ++ rest,
          tbl, n⟩ = .ok ((r, g, b, a), ⟨fmt, sv, rest, tbl, n⟩)) ∧
    (∀ (x y : Nat) (fmt fmt' : ArchiveFormat) (sv sv' : Bool)
      (tbl : List hash_table_entry) (n : Nat) (rest : List Token),
      read_vec2 ⟨fmt, sv, (write_vec2 ⟨fmt', sv', []⟩ x y).out ++ rest, tbl, n⟩ =
        .ok ((x, y), ⟨fmt, sv, rest, tbl, n⟩)) ∧
    (∀ (x y z : Nat) (fmt fmt' : ArchiveFormat) (sv sv' : Bool)
      (tbl : List hash_table_entry) (n : Nat) (rest : List Token),
      read_vec3 ⟨fmt, sv, (write_vec3 ⟨fmt', sv', []⟩ x y z).out ++ rest,
          tbl, n⟩ = .ok ((x, y, z), ⟨fmt, sv, rest, tbl, n⟩)) ∧
    (∀ (mn mx : Nat × Nat × Nat) (fmt fmt' : ArchiveFormat) (sv sv' : Bool)
      (tbl : List hash_table_entry) (n : Nat) (rest : List Token),
      read_bbox ⟨fmt, sv, (write_bbox ⟨fmt', sv', []⟩ mn mx).out ++ rest,
          tbl, n⟩ = .ok ((mn, mx), ⟨fmt, sv, rest, tbl, n⟩)) ∧
    (∀ (x : Nat) (fmt fmt' : ArchiveFormat) (sv sv' : Bool)
      (tbl : List hash_table_entry) (n : Nat) (rest : List Token),
      read_enum ⟨fmt, sv, (write_enum ⟨fmt', sv', []⟩ x).out ++ rest, tbl, n⟩ =
        .ok (x, ⟨fmt, sv, rest, tbl, n⟩)) ∧
    (∀ (a : VAnimate) (v : GameVersion) (fmt fmt' : ArchiveFormat)
      (tbl : List hash_table_entry) (n : Nat) (rest : List Token),
      VAnimate.load v ⟨fmt, true,
          (VAnimate.save a ⟨fmt', true, []⟩).out ++ rest, tbl, n⟩ =
        .ok (a, ⟨fmt, true, rest, tbl, n⟩)) := by
  refine ⟨?_, fun str fmt fmt' sv sv' tbl n rest => by
      simp [write_string, read_string],
    fun i fmt fmt' sv sv' tbl n rest => by
      simp [write_int, read_int, assure_entry, Value.kind],
    fun x fmt fmt' sv sv' tbl n rest => by
      simp [write_float, read_float, assure_entry, Value.kind],
    fun b fmt fmt' sv sv' tbl n rest => by
      simp [write_byte, read_byte, assure_entry, Value.kind],
    fun x fmt fmt' sv sv' tbl n rest => by
      simp [write_word, read_word, assure_entry, Value.kind],
    fun b fmt fmt' sv sv' tbl n rest => by
      simp [write_bool, read_bool, assure_entry, Value.kind],
    fun r g b a fmt fmt' sv sv' tbl n rest => by
      simp [write_color, read_color, assure_entry, Value.kind],
    fun x y fmt fmt' sv sv' tbl n rest => by
      simp [write_vec2, read_vec2, assure_entry, Value.kind],
    fun x y z fmt fmt' sv sv' tbl n rest => by
      simp [write_vec3, read_vec3, assure_entry, Value.kind],
    fun mn mx fmt fmt' sv sv' tbl n rest => by
      simp [write_bbox, read_bbox, assure_entry, Value.kind],
    fun x fmt fmt' sv sv' tbl n rest => by
      simp [write_enum, read_enum, assure_entry, Value.kind],
    fun a v fmt fmt' tbl n rest => by
      simp [VAnimate.save, write_bool, VAnimate.load, read_bool, assure_entry,
        Value.kind, is_save_game]⟩
  intro t fmt fmt' sv sv' tbl n
  have hout : (saveTree ⟨fmt', sv', []⟩ t).out = encodeTree t := by
    rw [saveTree_out t]
    rfl
  rw [hout, encodeTree_eq t]
  have hbody := loadRest_encode t (Tree.size t) [] fmt sv tbl (n + 1)
    (by rw [Tree.size_eq]; omega)
  rw [List.append_nil] at hbody
  have hfinal : n + 1 + Tree.childCount t = n + Tree.size t := by
    rw [Tree.size_eq]
    omega
  rw [hfinal] at hbody
  show loadRest (Tree.size t) (Tree.headOf t)
      ⟨fmt, sv, treeBody t, tbl, n + 1⟩ = _
  exact hbody

end ZenArchive
